import Mathlib

/-!
# Lengu: speculative execution benchmark (`tarea.go`)

A shallow embedding of the Go program `tarea.go` and the properties its
specification states about it.

Conventions of the embedding:

* a Go `error` is an `Option String` holding the message (`none` is `nil`);
* a `context.Context` is seen through its polls: `ctx k` tells whether the
  `k`-th `select` of a workload finds `ctx.Done()` ready;
* a loop that the source does not bound takes a fuel argument and returns
  `none` when the fuel runs out;
* `int` and `time.Duration` are 64-bit integers: where a sum or a product
  can leave that range the embedding wraps it with `wrap64`;
* clock readings and the values drawn by `rand.Intn` are inputs.
-/

namespace Lengu

/-! ## Go integers, strings and errors -/

/-- Two's complement wrap-around of a mathematical integer to a Go `int`
(64 bits): the value that `+`, `*` and `/` leave in an `int` or `int64`. -/
def wrap64 (x : Int) : Int := (x + 2 ^ 63) % 2 ^ 64 - 2 ^ 63

/-- Go `error` value: `none` is `nil`, `some msg` is an error whose `Error()` is `msg`. -/
abbrev GoError := Option String

/-- Polls of a `context.Context`: `ctx k = true` when the `k`-th `select`
takes the `<-ctx.Done()` case. -/
abbrev Contexto := Nat → Bool

/-- The context `context.Background()`: it is never cancelled. -/
def background : Contexto := fun _ => false

/-- A context that is already cancelled at the first poll and stays so. -/
def yaCancelado : Contexto := fun _ => true

/-- A context whose cancellation is first observed at poll `k`. -/
def canceladoDesde (k : Nat) : Contexto := fun p => decide (k ≤ p)

/-- Go `strings.Repeat("0", n)` for `n ≥ 0`. -/
def repeatZero (n : Nat) : String := String.mk (List.replicate n '0')

/-- Go `strings.HasPrefix(s, p)`. -/
def hasPrefix (s p : String) : Bool := p.data.isPrefixOf s.data

/-- Go `strings.Contains(s, sub)`. -/
def stringsContains (s sub : String) : Bool := decide (sub.data <:+: s.data)

/-! ## Workload A: `SimularProofOfWork` -/

/-- How a call that comes back ends: it returns a value or it panics. -/
inductive Llamada (α : Type) where
  | retorna (valor : α)
  | panic (msg : String)
deriving DecidableEq, Repr

/-- The `for` loop of `SimularProofOfWork` (lines 24-39), entered at the
`poll`-th `select` with counter `nonce`.  `sha256Hex data` stands for
`fmt.Sprintf("%x", sha256.Sum256([]byte(data)))`; `nonce++` wraps as a Go
`int` does. -/
def powBucle (sha256Hex : String → String) (ctx : Contexto) (blockData : String)
    (targetPrefix : String) : Nat → Nat → Int → Option (String × Int × GoError)
  | 0, _, _ => none
  | fuel + 1, poll, nonce =>
    if ctx poll then
      some ("", 0, some "POW cancelado")
    else
      let data := blockData ++ toString nonce
      let hashString := sha256Hex data
      if hasPrefix hashString targetPrefix then
        some (hashString, nonce, none)
      else
        powBucle sha256Hex ctx blockData targetPrefix fuel (poll + 1) (wrap64 (nonce + 1))

/-- Go `SimularProofOfWork(ctx, blockData, dificultad)` run for at most
`fuel` iterations of its loop.  With a negative `dificultad` the call
`strings.Repeat("0", dificultad)` of line 22 panics before the loop. -/
def SimularProofOfWork (sha256Hex : String → String) (ctx : Contexto) (blockData : String)
    (dificultad : Int) (fuel : Nat) : Option (Llamada (String × Int × GoError)) :=
  if dificultad < 0 then
    some (Llamada.panic "strings: negative Repeat count")
  else
    match powBucle sha256Hex ctx blockData (repeatZero dificultad.toNat) fuel 0 0 with
    | none => none
    | some r => some (Llamada.retorna r)

/-! ## Workload B: `EncontrarPrimos` -/

/-- The inner loop `for j := 2; j*j <= i; j++` of `EncontrarPrimos`
(lines 53-59), entered with the given `j`; the result is the final value of
`isPrime`.  `none` when the fuel runs out or `i%j` divides by zero. -/
def esPrimoBucle (i : Int) : Nat → Int → Option Bool
  | 0, _ => none
  | fuel + 1, j =>
    if wrap64 (j * j) ≤ i then
      if j = 0 then none
      else if Int.tmod i j = 0 then some false
      else esPrimoBucle i fuel (wrap64 (j + 1))
    else some true

/-- The outer loop `for i := 2; i < max; i++` of `EncontrarPrimos`
(lines 46-64), entered at the `poll`-th `select` with the given `i` and
`primes`.  Each run of the inner loop may take `interno` iterations. -/
def primosBucle (ctx : Contexto) (max : Int) (interno : Nat) :
    Nat → Nat → Int → List Int → Option (List Int × GoError)
  | 0, _, _, _ => none
  | fuel + 1, poll, i, primes =>
    if i < max then
      if ctx poll then
        some ([], some "búsqueda de primos cancelada")
      else
        match esPrimoBucle i interno 2 with
        | none => none
        | some isPrime =>
          primosBucle ctx max interno fuel (poll + 1) (wrap64 (i + 1))
            (if isPrime then primes ++ [i] else primes)
    else some (primes, none)

/-- Go `EncontrarPrimos(ctx, max)` where the outer loop and each inner loop
run for at most `fuel` iterations.  A `nil` slice is the empty list. -/
def EncontrarPrimos (ctx : Contexto) (max : Int) (fuel : Nat) : Option (List Int × GoError) :=
  primosBucle ctx max fuel fuel 0 2 []

/-- The primes among the `m` consecutive integers starting at `i`, in
ascending order: the list the specification expects from the prime search. -/
def primosDesde : Nat → Nat → List Int
  | _, 0 => []
  | i, m + 1 => (if Nat.Prime i then [(i : Int)] else []) ++ primosDesde (i + 1) m


/-- A stand-in for `sha256Hex` whose digest starts with a zero exactly
when the message has 20 characters: with empty block data no counter from
0 to `2^63 - 1` matches (they have at most 19 digits), and
`-9223372036854775808` does. -/
def hashPorLongitud (s : String) : String :=
  if s.length = 20 then "0b5e" else "f1d2"

/-- A small stand-in for `sha256Hex`, used to run the search on concrete
inputs: the digest starts with two zeros exactly when the message ends
in the digit `3`. -/
def hashDeEjemplo (s : String) : String :=
  if s.data.getLast? = some '3' then "00c3" else "a7f1"

/-! ## Decision workload: `CalcularTrazaDeProductoDeMatrices` -/

/-- The multiplication loops of `CalcularTrazaDeProductoDeMatrices`
(lines 84-92) on the matrices `m1` and `m2`, read at rows and columns
`0 .. n-1`.  The sums are exact integers: with entries in `[0, 9]` every
partial sum is at most `81 * n * n`, which an `int` holds for every size
whose matrices fit in memory. -/
def trazaDeProducto (n : Nat) (m1 m2 : Nat → Nat → Int) : Int :=
  (List.range n).foldl
    (fun trace i => trace + (List.range n).foldl (fun sum k => sum + m1 i k * m2 k i) 0) 0

/-- Go `CalcularTrazaDeProductoDeMatrices(n)`, where `intn t` is the value
of the `t`-th call of `rand.Intn(10)`: the filling loops (lines 74-81) draw
`m1[i][j]` and then `m2[i][j]`, row by row. -/
def CalcularTrazaDeProductoDeMatrices (intn : Nat → Int) (n : Nat) : Int :=
  trazaDeProducto n (fun i j => intn (2 * (i * n + j))) (fun i j => intn (2 * (i * n + j) + 1))

/-! ## Result records and the two runners -/

/-- Go `ResultadoPoW`. -/
structure ResultadoPoW where
  hash : String
  nonce : Int
  duracion : Int
  err : GoError
deriving DecidableEq, Repr

/-- Go `ResultadoPrimos`. -/
structure ResultadoPrimos where
  primos : List Int
  duracion : Int
  err : GoError
deriving DecidableEq, Repr

/-- Go `ResultadoDecision`. -/
structure ResultadoDecision where
  traza : Int
  duracion : Int
deriving DecidableEq, Repr

/-- Go `ejecucionSecuencial` (lines 125-156).  `traza` is the value the call
`CalcularTrazaDeProductoDeMatrices(n)` returned and `duracionTotal` the
final clock reading; the chosen workload runs under `context.Background()`
with the given fuel and its result is dropped; a panic of the workload is a
panic of the runner. -/
def ejecucionSecuencial (sha256Hex : String → String) (traza umbral : Int)
    (dificultadPoW : Int) (maxPrimos : Int) (blockData : String) (duracionTotal : Int)
    (fuel : Nat) : Option (Llamada (Int × String)) :=
  if traza > umbral then
    match SimularProofOfWork sha256Hex background blockData dificultadPoW fuel with
    | none => none
    | some (Llamada.panic msg) => some (Llamada.panic msg)
    | some (Llamada.retorna _) => some (Llamada.retorna (duracionTotal, "A (ProofOfWork)"))
  else
    match EncontrarPrimos background maxPrimos fuel with
    | none => none
    | some _ => some (Llamada.retorna (duracionTotal, "B (EncontrarPrimos)"))

/-- The end of `ejecucionEspeculativa` (lines 235-245): what is returned
once the branch is selected and `err` holds the failure of its outcome. -/
def finalizar (duracionTotal : Int) (ramaSeleccionada : String) (err : GoError) :
    Int × String × GoError :=
  match err with
  | some msg =>
    if stringsContains msg "cancelado" then
      (0, ramaSeleccionada,
        some "la rama ganadora fue cancelada (la decisión fue más rápida)")
    else (duracionTotal, ramaSeleccionada, none)
  | none => (duracionTotal, ramaSeleccionada, none)

/-- Go `ejecucionEspeculativa` (lines 205-245) as a function of the values
it receives: `resDecision` from `chDecision`, `resA` from `chRamaA` and
`resB` from `chRamaB` (only the channel of the selected branch is read),
and the final clock reading `duracionTotal`. -/
def ejecucionEspeculativa (umbral : Int) (resDecision : ResultadoDecision)
    (resA : ResultadoPoW) (resB : ResultadoPrimos) (duracionTotal : Int) :
    Int × String × GoError :=
  if resDecision.traza > umbral then
    finalizar duracionTotal "A (ProofOfWork)" resA.err
  else
    finalizar duracionTotal "B (EncontrarPrimos)" resB.err

/-! ## Benchmark harness: aggregation in `main` -/

/-- The first trial loop of `main` (lines 281-285): every sequential
duration is appended. -/
def recolectarSecuenciales (resultados : List (Int × String)) : List Int :=
  resultados.foldl (fun tiempos r => tiempos ++ [r.1]) []

/-- The second trial loop of `main` (lines 287-295): the duration of a
speculative trial is appended only when its error is `nil`. -/
def recolectarEspeculativos (resultados : List (Int × String × GoError)) : List Int :=
  resultados.foldl (fun tiempos r => if r.2.2 ≠ none then tiempos else tiempos ++ [r.1]) []

/-- The summing loops of `main` (lines 298-301 and 304-307): `total += t`
on `time.Duration`, a 64-bit integer. -/
def sumarDuraciones (tiempos : List Int) : Int :=
  tiempos.foldl (fun total t => wrap64 (total + t)) 0

/-- Go division of two `time.Duration` values: it panics on a zero divisor
and truncates toward zero otherwise. -/
def dividirDuracion (a b : Int) : Except String Int :=
  if b = 0 then Except.error "panic: runtime error: integer divide by zero"
  else Except.ok (wrap64 (Int.tdiv a b))

/-- The mean of line 302: `totalSecuencial / time.Duration(len(tiemposSecuenciales))`.
The length of a slice is an `int`, so the conversion keeps its value. -/
def tpoPromedioSecuencial (tiemposSecuenciales : List Int) : Except String Int :=
  dividirDuracion (sumarDuraciones tiemposSecuenciales) (tiemposSecuenciales.length : Int)

/-- The mean of line 308: `totalEspeculativo / time.Duration(len(tiemposEspeculativos))`. -/
def tpoPromedioEspeculativo (tiemposEspeculativos : List Int) : Except String Int :=
  dividirDuracion (sumarDuraciones tiemposEspeculativos) (tiemposEspeculativos.length : Int)

/-- The aggregation of `main` (lines 281-308) from the results of the
trials: the two means, or the panic that stops the program. -/
def agregar (secuenciales : List (Int × String))
    (especulativos : List (Int × String × GoError)) : Except String (Int × Int) :=
  match tpoPromedioSecuencial (recolectarSecuenciales secuenciales) with
  | Except.error e => Except.error e
  | Except.ok promedioSecuencial =>
    match tpoPromedioEspeculativo (recolectarEspeculativos especulativos) with
    | Except.error e => Except.error e
    | Except.ok promedioEspeculativo => Except.ok (promedioSecuencial, promedioEspeculativo)

/-- The result of a speculative trial whose chosen branch was cancelled. -/
def pruebaFallida : Int × String × GoError :=
  (0, "A (ProofOfWork)", some "la rama ganadora fue cancelada (la decisión fue más rápida)")


/-! ## One run of `ejecucionEspeculativa` as a transition system

The orchestrator and its three goroutines take steps in any interleaving.
The orchestrator is in one of the phases `Start` (lines 163-200),
`AwaitDecision` (line 205), `Select` (line 211), `AwaitChosen` (lines 214
and 227), `Cancel` (lines 222 and 232) and `Finish` (lines 235-245).  A
branch goroutine takes one step per iteration of the outer loop of its
workload: the poll of the scope and what follows it.  Whether an iteration
ends the workload is decided by the data, so it comes with the action. -/

/-- The two candidate branches. -/
inductive Rama where
  | A
  | B
deriving DecidableEq, Repr

/-- Phases of the orchestrator. -/
inductive Fase where
  | Start
  | AwaitDecision
  | Select
  | AwaitChosen
  | Cancel
  | Finish
deriving DecidableEq, Repr

/-- Life of a goroutine: not yet launched, running, or returned after
sending its outcome on its channel. -/
inductive Tarea where
  | noLanzada
  | corriendo
  | terminada
deriving DecidableEq, Repr

/-- State of one run.  The channels have capacity 1 and hold at most the
one value their goroutine sends; of a branch outcome only the `err` field
is kept.  `sondeoCanceladoA` and `sondeoCanceladoB` record that a poll of
that branch has found the scope cancelled. -/
structure Estado where
  fase : Fase
  disparado : Bool
  tareaDecision : Tarea
  tareaA : Tarea
  tareaB : Tarea
  chDecision : Option Int
  chRamaA : Option GoError
  chRamaB : Option GoError
  resDecision : Option Int
  ramaSeleccionada : Option Rama
  recibidoA : Option GoError
  recibidoB : Option GoError
  sondeoCanceladoA : Bool
  sondeoCanceladoB : Bool
  retorno : Option (Int × String × GoError)
deriving DecidableEq, Repr

/-- The state on entry to `ejecucionEspeculativa`. -/
def estadoInicial : Estado :=
  { fase := Fase.Start, disparado := false, tareaDecision := Tarea.noLanzada,
    tareaA := Tarea.noLanzada, tareaB := Tarea.noLanzada, chDecision := none,
    chRamaA := none, chRamaB := none, resDecision := none, ramaSeleccionada := none,
    recibidoA := none, recibidoB := none, sondeoCanceladoA := false,
    sondeoCanceladoB := false, retorno := none }

/-- What the scheduler lets happen next. -/
inductive Accion where
  /-- The orchestrator takes its next step; `reloj` is `time.Since(inicioTotal)`. -/
  | orquestador (reloj : Int)
  /-- The decision goroutine returns `traza` and sends it on `chDecision`. -/
  | decision (traza : Int)
  /-- One iteration of the loop of `SimularProofOfWork` in the goroutine of
  branch A; `hallado` tells whether the hash of this iteration matches. -/
  | iteracionA (hallado : Bool)
  /-- One test of the loop condition of `EncontrarPrimos` in the goroutine of
  branch B, with the iteration that follows; `agotado` tells that `i < max`
  is false. -/
  | iteracionB (agotado : Bool)
deriving DecidableEq, Repr

/-- The display name of a branch (lines 212 and 225). -/
def nombreRama : Rama → String
  | Rama.A => "A (ProofOfWork)"
  | Rama.B => "B (EncontrarPrimos)"

/-- The goroutine state of a branch. -/
def Estado.tarea (s : Estado) : Rama → Tarea
  | Rama.A => s.tareaA
  | Rama.B => s.tareaB

/-- The outcome the orchestrator has received from a branch, if any. -/
def Estado.recibido (s : Estado) : Rama → Option GoError
  | Rama.A => s.recibidoA
  | Rama.B => s.recibidoB

/-- Whether a poll of the branch has found the scope cancelled. -/
def Estado.sondeoCancelado (s : Estado) : Rama → Bool
  | Rama.A => s.sondeoCanceladoA
  | Rama.B => s.sondeoCanceladoB

/-- One step of the run; `none` when the action is not enabled (a receive
on an empty channel blocks, a goroutine that is not running does nothing). -/
def paso (umbral : Int) (s : Estado) : Accion → Option Estado
  | Accion.orquestador reloj =>
    match s.fase with
    | Fase.Start =>
      some { s with fase := Fase.AwaitDecision, tareaDecision := Tarea.corriendo,
                    tareaA := Tarea.corriendo, tareaB := Tarea.corriendo }
    | Fase.AwaitDecision =>
      match s.chDecision with
      | none => none
      | some traza =>
        some { s with fase := Fase.Select, chDecision := none, resDecision := some traza }
    | Fase.Select =>
      match s.resDecision with
      | none => none
      | some traza =>
        some { s with fase := Fase.AwaitChosen,
                      ramaSeleccionada := some (if traza > umbral then Rama.A else Rama.B) }
    | Fase.AwaitChosen =>
      match s.ramaSeleccionada with
      | none => none
      | some Rama.A =>
        match s.chRamaA with
        | none => none
        | some err => some { s with fase := Fase.Cancel, chRamaA := none, recibidoA := some err }
      | some Rama.B =>
        match s.chRamaB with
        | none => none
        | some err => some { s with fase := Fase.Cancel, chRamaB := none, recibidoB := some err }
    | Fase.Cancel => some { s with fase := Fase.Finish, disparado := true }
    | Fase.Finish =>
      match s.retorno, s.ramaSeleccionada with
      | none, some r =>
        some { s with disparado := true,
                      retorno := some (finalizar reloj (nombreRama r) ((s.recibido r).join)) }
      | _, _ => none
  | Accion.decision traza =>
    if s.tareaDecision = Tarea.corriendo then
      some { s with tareaDecision := Tarea.terminada, chDecision := some traza }
    else none
  | Accion.iteracionA hallado =>
    if s.tareaA = Tarea.corriendo then
      if s.disparado then
        some { s with tareaA := Tarea.terminada, chRamaA := some (some "POW cancelado"),
                      sondeoCanceladoA := true }
      else if hallado then
        some { s with tareaA := Tarea.terminada, chRamaA := some none }
      else some s
    else none
  | Accion.iteracionB agotado =>
    if s.tareaB = Tarea.corriendo then
      if agotado then
        some { s with tareaB := Tarea.terminada, chRamaB := some none }
      else if s.disparado then
        some { s with tareaB := Tarea.terminada,
                      chRamaB := some (some "búsqueda de primos cancelada"),
                      sondeoCanceladoB := true }
      else some s
    else none

/-- The state reached from `s` by a schedule, `none` when one of its
actions is not enabled. -/
def ejecutar (umbral : Int) : Estado → List Accion → Option Estado
  | s, [] => some s
  | s, a :: resto =>
    match paso umbral s a with
    | none => none
    | some t => ejecutar umbral t resto

/-- A schedule in which the decision selects branch A, branch A finds its
hash on its second iteration and branch B is stopped by the cancellation. -/
def planDeEjemplo : List Accion :=
  [Accion.orquestador 0, Accion.iteracionB false, Accion.decision 5, Accion.iteracionA false,
    Accion.orquestador 10, Accion.orquestador 11, Accion.iteracionA true,
    Accion.orquestador 20, Accion.orquestador 21, Accion.iteracionB false,
    Accion.orquestador 30]

/-- The state in which the schedule `planDeEjemplo` ends with threshold 4. -/
def estadoFinalDeEjemplo : Estado :=
  { fase := Fase.Finish, disparado := true, tareaDecision := Tarea.terminada,
    tareaA := Tarea.terminada, tareaB := Tarea.terminada, chDecision := none,
    chRamaA := none, chRamaB := some (some "búsqueda de primos cancelada"),
    resDecision := some 5, ramaSeleccionada := some Rama.A, recibidoA := some none,
    recibidoB := none, sondeoCanceladoA := false, sondeoCanceladoB := true,
    retorno := some (30, "A (ProofOfWork)", none) }

/-- The failure with which the workload of a branch reports its
cancellation (lines 27 and 50). -/
def mensajeCancelado : Rama → String
  | Rama.A => "POW cancelado"
  | Rama.B => "búsqueda de primos cancelada"

/-- The error of line 242: the chosen branch was cancelled. -/
def errorRamaGanadoraCancelada : String :=
  "la rama ganadora fue cancelada (la decisión fue más rápida)"

/-- One call of `ejecucionEspeculativa` under the schedule `plan`: what the
call returns, `none` when the schedule does not lead to its return. -/
def pruebaEspeculativa (umbral : Int) (plan : List Accion) : Option (Int × String × GoError) :=
  match ejecutar umbral estadoInicial plan with
  | none => none
  | some s => s.retorno

/-- The calls of `ejecucionEspeculativa` made by the second trial loop of
`main` (line 288), one schedule per trial: the results in trial order. -/
def pruebasEspeculativas (umbral : Int) :
    List (List Accion) → Option (List (Int × String × GoError))
  | [] => some []
  | plan :: resto =>
    match pruebaEspeculativa umbral plan, pruebasEspeculativas umbral resto with
    | some r, some rs => some (r :: rs)
    | _, _ => none

/-- The facts that hold in every state a run can reach. -/
def Invariante (s : Estado) : Prop :=
  (s.sondeoCanceladoA = true → s.disparado = true) ∧
  (s.sondeoCanceladoB = true → s.disparado = true) ∧
  (s.chRamaA.isSome → s.tareaA = Tarea.terminada) ∧
  (s.chRamaB.isSome → s.tareaB = Tarea.terminada) ∧
  (s.recibidoA.isSome → s.tareaA = Tarea.terminada ∧ s.ramaSeleccionada = some Rama.A) ∧
  (s.recibidoB.isSome → s.tareaB = Tarea.terminada ∧ s.ramaSeleccionada = some Rama.B) ∧
  ((s.recibidoA.isSome ∨ s.recibidoB.isSome) → s.resDecision.isSome) ∧
  (s.disparado = true →
    (s.ramaSeleccionada = some Rama.A ∧ s.recibidoA.isSome ∧ s.sondeoCanceladoA = false) ∨
    (s.ramaSeleccionada = some Rama.B ∧ s.recibidoB.isSome ∧ s.sondeoCanceladoB = false)) ∧
  (∀ msg, s.chRamaA = some (some msg) → s.sondeoCanceladoA = true) ∧
  (∀ msg, s.chRamaB = some (some msg) → s.sondeoCanceladoB = true) ∧
  (∀ msg, s.recibidoA = some (some msg) → s.sondeoCanceladoA = true) ∧
  (∀ msg, s.recibidoB = some (some msg) → s.sondeoCanceladoB = true) ∧
  (s.fase = Fase.Start → s.tareaA = Tarea.noLanzada ∧ s.tareaB = Tarea.noLanzada ∧
    s.tareaDecision = Tarea.noLanzada ∧ s.chRamaA = none ∧ s.chRamaB = none) ∧
  ((s.fase = Fase.Start ∨ s.fase = Fase.AwaitDecision ∨ s.fase = Fase.Select) →
    s.ramaSeleccionada = none) ∧
  ((s.fase = Fase.Start ∨ s.fase = Fase.AwaitDecision) → s.resDecision = none) ∧
  ((s.fase = Fase.Select ∨ s.fase = Fase.AwaitChosen ∨ s.fase = Fase.Cancel ∨
    s.fase = Fase.Finish) → s.resDecision.isSome) ∧
  ((s.fase = Fase.Start ∨ s.fase = Fase.AwaitDecision ∨ s.fase = Fase.Select ∨
    s.fase = Fase.AwaitChosen) → s.recibidoA = none ∧ s.recibidoB = none) ∧
  ((s.fase = Fase.Cancel ∨ s.fase = Fase.Finish) →
    (s.ramaSeleccionada = some Rama.A ∧ s.recibidoA.isSome) ∨
    (s.ramaSeleccionada = some Rama.B ∧ s.recibidoB.isSome)) ∧
  (s.fase ≠ Fase.Finish → s.disparado = false ∧ s.retorno = none)

/-! ## Lemmas on Go integers and on the prime search -/

theorem wrap64_eq (x : Int) (h1 : -2 ^ 63 ≤ x) (h2 : x < 2 ^ 63) : wrap64 x = x := by
  unfold wrap64
  omega

theorem wrap64_natCast (m : Nat) (h : m < 2 ^ 63) : wrap64 (m : Int) = (m : Int) := by
  apply wrap64_eq <;> omega

theorem esPrimoBucle_spec (n : Nat) (hn2 : 2 ≤ n) (hn : n < 2 ^ 62) :
    ∀ (fuel m : Nat), 2 ≤ m → (m - 1) * (m - 1) ≤ n →
      (∀ d : Nat, 2 ≤ d → d < m → ¬ d ∣ n) → n + 2 ≤ fuel + m →
      esPrimoBucle (n : Int) fuel (m : Int) = some (decide (Nat.Prime n)) := by
  intro fuel
  induction fuel with
  | zero =>
    intro m hm hsq _ hf
    exfalso
    have : m - 1 ≤ (m - 1) * (m - 1) := Nat.le_mul_self _
    omega
  | succ fuel ih =>
    intro m hm hsq hd hf
    have hm31 : m - 1 < 2 ^ 31 := by
      by_contra hc
      have h1 : 2 ^ 31 ≤ m - 1 := by omega
      have : 2 ^ 31 * 2 ^ 31 ≤ (m - 1) * (m - 1) := Nat.mul_le_mul h1 h1
      omega
    have hmm : m * m ≤ 2 ^ 31 * 2 ^ 31 := Nat.mul_le_mul (by omega) (by omega)
    have hw : wrap64 ((m : Int) * (m : Int)) = ((m * m : Nat) : Int) := by
      rw [← Nat.cast_mul]
      exact wrap64_natCast _ (by omega)
    have hw1 : wrap64 ((m : Int) + 1) = ((m + 1 : Nat) : Int) := by
      rw [← wrap64_natCast (m + 1) (by omega)]
      simp
    unfold esPrimoBucle
    rw [hw, hw1]
    by_cases hle : m * m ≤ n
    · have hle' : ((m * m : Nat) : Int) ≤ (n : Int) := by exact_mod_cast hle
      have hm0 : (m : Int) ≠ 0 := by omega
      rw [if_pos hle', if_neg hm0]
      rw [Int.tmod_eq_emod (by omega) (by omega)]
      by_cases hdiv : (n : Int) % (m : Int) = 0
      · rw [if_pos hdiv]
        have hdvd : m ∣ n := by
          have := Int.dvd_of_emod_eq_zero hdiv
          exact_mod_cast this
        have hlt : m < n := by
          have : m * 2 ≤ m * m := Nat.mul_le_mul_left m hm
          omega
        have hnp : ¬ Nat.Prime n := by
          intro hp
          rcases (Nat.dvd_prime hp).1 hdvd with h | h <;> omega
        simp [hnp]
      · rw [if_neg hdiv]
        apply ih (m + 1) (by omega)
        · simpa using hle
        · intro d hd2 hdlt
          by_cases hdm : d = m
          · subst hdm
            intro hdvd
            apply hdiv
            exact Int.emod_eq_zero_of_dvd (by exact_mod_cast hdvd)
          · exact hd d hd2 (by omega)
        · omega
    · have hle' : ¬ ((m * m : Nat) : Int) ≤ (n : Int) := by
        intro h
        exact hle (by exact_mod_cast h)
      rw [if_neg hle']
      have hp : Nat.Prime n := by
        rw [Nat.prime_def_le_sqrt]
        refine ⟨hn2, ?_⟩
        intro d hd2 hds
        apply hd d hd2
        have h1 : d * d ≤ n := Nat.le_sqrt.mp hds
        by_contra hc
        have h2 : m ≤ d := by omega
        have : m * m ≤ d * d := Nat.mul_le_mul h2 h2
        omega
      simp [hp]

theorem primosDesde_mem (p : Int) : ∀ (m i : Nat),
    p ∈ primosDesde i m ↔ ∃ t : Nat, p = (t : Int) ∧ i ≤ t ∧ t < i + m ∧ Nat.Prime t := by
  intro m
  induction m with
  | zero =>
    intro i
    simp [primosDesde]
    intro t _ h1 h2
    omega
  | succ m ih =>
    intro i
    rw [primosDesde, List.mem_append, ih (i + 1)]
    constructor
    · rintro (h | ⟨t, rfl, h1, h2, h3⟩)
      · by_cases hp : Nat.Prime i
        · rw [if_pos hp, List.mem_singleton] at h
          exact ⟨i, h, le_refl _, by omega, hp⟩
        · rw [if_neg hp] at h
          cases h
      · exact ⟨t, rfl, by omega, by omega, h3⟩
    · rintro ⟨t, rfl, h1, h2, h3⟩
      by_cases hti : t = i
      · subst hti
        left
        rw [if_pos h3]
        exact List.mem_singleton.mpr rfl
      · right
        exact ⟨t, rfl, by omega, by omega, h3⟩

theorem primosDesde_sorted : ∀ (m i : Nat), List.Sorted (· < ·) (primosDesde i m) := by
  intro m
  induction m with
  | zero => intro i; simp [primosDesde]
  | succ m ih =>
    intro i
    rw [primosDesde]
    have htail : ∀ q ∈ primosDesde (i + 1) m, (i : Int) < q := by
      intro q hq
      obtain ⟨t, rfl, h1, _, _⟩ := (primosDesde_mem q m (i + 1)).1 hq
      exact_mod_cast h1
    by_cases hp : Nat.Prime i
    · rw [if_pos hp]
      exact List.sorted_cons.mpr ⟨htail, ih (i + 1)⟩
    · rw [if_neg hp]
      exact ih (i + 1)

theorem primosBucle_avanza (ctx : Contexto) (max : Int) (interno : Nat) :
    ∀ (m fuel poll i : Nat) (acc : List Int), 2 ≤ i → ((i + m : Nat) : Int) ≤ max →
      i + m ≤ 2 ^ 62 → i + m ≤ interno → (∀ p, poll ≤ p → p < poll + m → ctx p = false) →
      primosBucle ctx max interno (fuel + m) poll (i : Int) acc
        = primosBucle ctx max interno fuel (poll + m) ((i + m : Nat) : Int)
            (acc ++ primosDesde i m) := by
  intro m
  induction m with
  | zero =>
    intro fuel poll i acc _ _ _ _ _
    simp [primosDesde]
  | succ m ih =>
    intro fuel poll i acc hi hle h62 hint hctx
    have hlt : (i : Int) < max := by push_cast at hle; omega
    have hi62 : i < 2 ^ 62 := by omega
    have hinner : esPrimoBucle (i : Int) interno ((2 : Nat) : Int) = some (decide (Nat.Prime i)) :=
      esPrimoBucle_spec i hi hi62 interno 2 (le_refl _) (by omega)
        (by intro d h1 h2; omega) (by omega)
    have hw : wrap64 ((i : Int) + 1) = ((i + 1 : Nat) : Int) := by
      rw [← wrap64_natCast (i + 1) (by omega)]
      simp
    have hstep : primosBucle ctx max interno (fuel + m + 1) poll (i : Int) acc
        = primosBucle ctx max interno (fuel + m) (poll + 1) ((i + 1 : Nat) : Int)
            (acc ++ (if Nat.Prime i then [(i : Int)] else [])) := by
      rw [primosBucle, if_pos hlt, hctx poll (le_refl _) (by omega)]
      simp only [Nat.cast_ofNat] at hinner
      simp only [Bool.false_eq_true, if_false, hinner, hw]
      by_cases hp : Nat.Prime i <;> simp [hp]
    rw [show fuel + (m + 1) = fuel + m + 1 from rfl, hstep]
    rw [ih fuel (poll + 1) (i + 1) _ (by omega) (by rw [show i + 1 + m = i + (m + 1) by omega]; exact hle)
      (by omega) (by omega) (by intro p h1 h2; exact hctx p (by omega) (by omega))]
    rw [primosDesde, List.append_assoc]
    rw [show poll + 1 + m = poll + (m + 1) by omega, show i + 1 + m = i + (m + 1) by omega]

/-- C1: with a scope that is never cancelled and a bound `max ≤ 2^62`,
`EncontrarPrimos` returns (given enough fuel for its loops) no error and a
list that is exactly the primes `p` with `2 ≤ p < max`: every element is
such a prime, every such prime occurs, the list is strictly ascending, and
it is empty when `max ≤ 2`. -/
theorem EncontrarPrimos_exactamente_los_primos (max : Int) (hmax : max ≤ 2 ^ 62)
    (fuel : Nat) (hfuel : max.toNat < fuel) :
    ∃ primes : List Int, EncontrarPrimos background max fuel = some (primes, none) ∧
      (∀ p ∈ primes, 2 ≤ p ∧ p < max ∧ Nat.Prime p.toNat) ∧
      (∀ p : Int, 2 ≤ p → p < max → Nat.Prime p.toNat → p ∈ primes) ∧
      List.Sorted (· < ·) primes ∧ (max ≤ 2 → primes = []) := by
  obtain ⟨f, rfl⟩ : ∃ f, fuel = f + 1 := ⟨fuel - 1, by omega⟩
  by_cases h2 : max ≤ 2
  · refine ⟨[], ?_, ?_, ?_, ?_, ?_⟩
    · have : ¬ (2 : Int) < max := by omega
      simp [EncontrarPrimos, primosBucle, this]
    · intro p hp; cases hp
    · intro p h1 h3 _; omega
    · simp
    · intro _; rfl
  · obtain ⟨M, rfl⟩ : ∃ M : Nat, max = (M : Int) := ⟨max.toNat, by omega⟩
    have hM : 2 < M := by omega
    have hMf : M ≤ f := by simp at hfuel; omega
    obtain ⟨g, hg⟩ : ∃ g, f + 1 = (g + 1) + (M - 2) := ⟨f - (M - 2), by omega⟩
    have hrun : EncontrarPrimos background (M : Int) (f + 1)
        = some (primosDesde 2 (M - 2), none) := by
      unfold EncontrarPrimos
      have h := primosBucle_avanza background (M : Int) (f + 1) (M - 2) (g + 1) 0 2 []
        (le_refl _) (by have : 2 + (M - 2) = M := by omega
                        rw [this]) (by omega) (by omega) (by intro p _ _; rfl)
      rw [show ((2 : Nat) : Int) = 2 from rfl] at h
      conv_lhs => arg 4; rw [hg]
      rw [h]
      have h2M : 2 + (M - 2) = M := by omega
      rw [h2M, primosBucle, if_neg (lt_irrefl _)]
      simp
    refine ⟨primosDesde 2 (M - 2), hrun, ?_, ?_, primosDesde_sorted _ _, ?_⟩
    · intro p hp
      obtain ⟨t, rfl, h1, h3, h4⟩ := (primosDesde_mem p _ _).1 hp
      refine ⟨by exact_mod_cast h1, by have : t < M := by omega
                                       exact_mod_cast this, by simpa using h4⟩
    · intro p h1 h3 hp
      obtain ⟨t, rfl⟩ : ∃ t : Nat, p = (t : Int) := ⟨p.toNat, by omega⟩
      refine (primosDesde_mem _ _ _).2 ⟨t, rfl, by exact_mod_cast h1, ?_, by simpa using hp⟩
      have : t < M := by exact_mod_cast h3
      omega
    · intro h; omega

/-- Witness of C1 at `max = 12`. -/
theorem EncontrarPrimos_exactamente_los_primos_witness :
    ((12 : Int) ≤ 2 ^ 62 ∧ (12 : Int).toNat < 13) ∧
    EncontrarPrimos background 12 13 = some ([2, 3, 5, 7, 11], none) ∧
    ∃ primes : List Int, EncontrarPrimos background 12 13 = some (primes, none) ∧
      (∀ p ∈ primes, 2 ≤ p ∧ p < 12 ∧ Nat.Prime p.toNat) ∧
      (∀ p : Int, 2 ≤ p → p < 12 → Nat.Prime p.toNat → p ∈ primes) ∧
      List.Sorted (· < ·) primes ∧ ((12 : Int) ≤ 2 → primes = []) :=
  ⟨⟨by norm_num, by decide⟩, by decide,
    EncontrarPrimos_exactamente_los_primos 12 (by norm_num) 13 (by decide)⟩

/-! ## Lemmas on the proof-of-work search -/

theorem wrap64_add_wrap64 (a b : Int) : wrap64 (wrap64 a + b) = wrap64 (a + b) := by
  unfold wrap64
  omega

theorem hasPrefix_repeatZero (s : String) (d : Nat) :
    hasPrefix s (repeatZero d) = true ↔ s.data.take d = List.replicate d '0' := by
  unfold hasPrefix repeatZero
  rw [List.isPrefixOf_iff_prefix, List.prefix_iff_eq_take]
  simp only [List.length_replicate]
  exact eq_comm

theorem powBucle_resultado (sha256Hex : String → String) (ctx : Contexto) (blockData tp : String) :
    ∀ (fuel poll : Nat) (c : Int) (h : String) (k : Int),
      powBucle sha256Hex ctx blockData tp fuel poll (wrap64 c) = some (h, k, none) →
      ∃ m : Nat, m < fuel ∧ k = wrap64 (c + m) ∧ hasPrefix h tp = true ∧
        h = sha256Hex (blockData ++ toString k) ∧
        ∀ i : Nat, i < m →
          hasPrefix (sha256Hex (blockData ++ toString (wrap64 (c + i)))) tp = false := by
  intro fuel
  induction fuel with
  | zero => intro poll c h k hr; simp [powBucle] at hr
  | succ fuel ih =>
    intro poll c h k hr
    rw [powBucle] at hr
    by_cases hc : ctx poll = true
    · simp [hc] at hr
    · rw [if_neg hc] at hr
      by_cases hm : hasPrefix (sha256Hex (blockData ++ toString (wrap64 c))) tp = true
      · simp only [hm, if_true, Option.some.injEq, Prod.mk.injEq] at hr
        obtain ⟨h1, h2, _⟩ := hr
        subst h1 h2
        exact ⟨0, by omega, by simp, hm, rfl, by intro i hi; omega⟩
      · simp only [hm, if_false] at hr
        rw [wrap64_add_wrap64] at hr
        obtain ⟨m, hmf, hk, hp, hh, hno⟩ := ih (poll + 1) (c + 1) h k hr
        refine ⟨m + 1, by omega, ?_, hp, hh, ?_⟩
        · rw [hk]; push_cast; ring_nf
        · intro i hi
          cases i with
          | zero => simpa using hm
          | succ i =>
            have := hno i (by omega)
            rw [show c + ((i + 1 : Nat) : Int) = c + 1 + (i : Int) by push_cast; ring]
            exact this

theorem powBucle_avanza (sha256Hex : String → String) (ctx : Contexto) (blockData tp : String) :
    ∀ (m fuel poll : Nat) (c : Int),
      (∀ j : Nat, j < m → ctx (poll + j) = false ∧
        hasPrefix (sha256Hex (blockData ++ toString (wrap64 (c + j)))) tp = false) →
      powBucle sha256Hex ctx blockData tp (fuel + m) poll (wrap64 c)
        = powBucle sha256Hex ctx blockData tp fuel (poll + m) (wrap64 (c + m)) := by
  intro m
  induction m with
  | zero => intro fuel poll c _; simp
  | succ m ih =>
    intro fuel poll c hyp
    have h0 := hyp 0 (by omega)
    simp only [Nat.add_zero, Nat.cast_zero, add_zero] at h0
    rw [show fuel + (m + 1) = fuel + m + 1 from rfl, powBucle]
    simp only [h0.1, h0.2, Bool.false_eq_true, if_false]
    rw [wrap64_add_wrap64, ih fuel (poll + 1) (c + 1)]
    · rw [show poll + 1 + m = poll + (m + 1) by omega,
        show c + 1 + (m : Int) = c + ((m + 1 : Nat) : Int) by push_cast; ring]
    · intro j hj
      have := hyp (j + 1) (by omega)
      rw [show poll + 1 + j = poll + (j + 1) by omega,
        show c + 1 + (j : Int) = c + ((j + 1 : Nat) : Int) by push_cast; ring]
      exact this

theorem SimularProofOfWork_retorna (sha256Hex : String → String) (ctx : Contexto)
    (blockData : String) (dificultad : Int) (fuel : Nat) (r : String × Int × GoError) :
    SimularProofOfWork sha256Hex ctx blockData dificultad fuel = some (Llamada.retorna r) ↔
      0 ≤ dificultad ∧
        powBucle sha256Hex ctx blockData (repeatZero dificultad.toNat) fuel 0 (wrap64 0)
          = some r := by
  unfold SimularProofOfWork
  rw [show wrap64 0 = 0 from rfl]
  by_cases hd : dificultad < 0
  · simp [hd]
  · rw [if_neg hd]
    cases hp : powBucle sha256Hex ctx blockData (repeatZero dificultad.toNat) fuel 0 0 with
    | none => simp
    | some v => simp; omega

/-! ## Workload A: correctness of a returned pair (C2) -/

/-- C2: whenever `SimularProofOfWork` returns without error a pair
`(hash, nonce)`, whatever the block data, the difficulty `d`, the scope and
the hash function, `d` is not negative, `hash` starts with `d` characters
`'0'` and is the hex digest of `blockData` followed by the decimal
rendering of `nonce`. -/
theorem SimularProofOfWork_hash_correcto (sha256Hex : String → String) (ctx : Contexto)
    (blockData : String) (dificultad : Int) (fuel : Nat) (hash : String) (nonce : Int)
    (h : SimularProofOfWork sha256Hex ctx blockData dificultad fuel
      = some (Llamada.retorna (hash, nonce, none))) :
    0 ≤ dificultad ∧
      hash.data.take dificultad.toNat = List.replicate dificultad.toNat '0' ∧
      hash = sha256Hex (blockData ++ toString nonce) := by
  obtain ⟨hd, hp⟩ := (SimularProofOfWork_retorna _ _ _ _ _ _).1 h
  obtain ⟨_, _, _, h1, h2, _⟩ := powBucle_resultado sha256Hex ctx blockData _ fuel 0 0 hash nonce hp
  exact ⟨hd, (hasPrefix_repeatZero _ _).1 h1, h2⟩

/-- Witness of C2: the search over `hashDeEjemplo` with block data `"ab"`
and difficulty 2 returns the pair `("00c3", 3)`. -/
theorem SimularProofOfWork_hash_correcto_witness :
    SimularProofOfWork hashDeEjemplo background "ab" 2 10
      = some (Llamada.retorna ("00c3", 3, none)) ∧
    ((0 : Int) ≤ 2 ∧ "00c3".data.take (2 : Int).toNat = List.replicate (2 : Int).toNat '0' ∧
      "00c3" = hashDeEjemplo ("ab" ++ toString (3 : Int))) :=
  ⟨by decide,
    SimularProofOfWork_hash_correcto hashDeEjemplo background "ab" 2 10 "00c3" 3 (by decide)⟩

/-! ## Workload A: the returned counter (C10) -/

theorem cero_mas (x : Int) : (0 : Int) + x = x := zero_add x

theorem hashPorLongitud_natural (j : Nat) (hj : j < 2 ^ 63) :
    hasPrefix (hashPorLongitud ("" ++ toString (wrap64 ((0 : Int) + (j : Nat))))) (repeatZero 1)
      = false := by
  rw [cero_mas, wrap64_natCast j hj]
  have hlen : (toString ((j : Nat) : Int)).length ≤ 19 :=
    Nat.repr_length j 19 (by decide) (by omega)
  have h20 : ¬ ("" ++ toString ((j : Nat) : Int)).length = 20 := by
    rw [String.length_append]
    simp only [String.length_empty, zero_add]
    omega
  unfold hashPorLongitud
  rw [if_neg h20]
  decide

/-- Counterexample to C10 as stated: with the digest `hashPorLongitud`,
empty block data and difficulty 1, no counter from 0 to `2^63 - 1` matches;
the `int` counter then wraps and the search returns the negative counter
`-9223372036854775808`, which is not a non-negative integer. -/
theorem SimularProofOfWork_retorna_nonce_negativo :
    SimularProofOfWork hashPorLongitud background "" 1 (2 ^ 63 + 1)
      = some (Llamada.retorna ("0b5e", -9223372036854775808, none)) ∧
    ¬ (0 : Int) ≤ -9223372036854775808 := by
  refine ⟨?_, by decide⟩
  rw [SimularProofOfWork_retorna]
  refine ⟨by decide, ?_⟩
  rw [show ((1 : Int).toNat) = 1 from rfl, show (2 ^ 63 + 1 : Nat) = 1 + 2 ^ 63 by norm_num]
  rw [powBucle_avanza hashPorLongitud background "" (repeatZero 1) (2 ^ 63) 1 0 0
    (fun j hj => ⟨rfl, hashPorLongitud_natural j hj⟩)]
  have hw : wrap64 ((0 : Int) + ((2 ^ 63 : Nat) : Int)) = -9223372036854775808 := by decide
  rw [hw, show (1 : Nat) = 0 + 1 from rfl, powBucle]
  decide

/-- C10, amended: with a never-cancelled scope and a difficulty `d ≥ 0`, a
counter `k` returned by `SimularProofOfWork` has a digest (of `blockData`
followed by the decimal counter) that starts with `d` zeros, no counter `j`
with `0 ≤ j < k` has such a digest, and `k` is not negative when the search
returns within its first `2^63` iterations.  For `d = 0` the search returns
counter 0.  Conversely, whenever some counter from 0 to `2^63 - 1` matches,
the search (given fuel beyond that counter) returns the smallest matching
one. -/
theorem SimularProofOfWork_nonce_minimo (sha256Hex : String → String) (blockData : String)
    (dificultad : Int) (hd : 0 ≤ dificultad) :
    (∀ (fuel : Nat) (hash : String) (k : Int),
      SimularProofOfWork sha256Hex background blockData dificultad fuel
        = some (Llamada.retorna (hash, k, none)) →
      (sha256Hex (blockData ++ toString k)).data.take dificultad.toNat
        = List.replicate dificultad.toNat '0' ∧
      (∀ j : Int, 0 ≤ j → j < k →
        (sha256Hex (blockData ++ toString j)).data.take dificultad.toNat
          ≠ List.replicate dificultad.toNat '0') ∧
      (fuel ≤ 2 ^ 63 → 0 ≤ k)) ∧
    (dificultad = 0 → ∀ fuel, 0 < fuel →
      SimularProofOfWork sha256Hex background blockData dificultad fuel
        = some (Llamada.retorna (sha256Hex (blockData ++ toString (0 : Int)), 0, none))) ∧
    (∀ j : Int, 0 ≤ j → j < 2 ^ 63 →
      (sha256Hex (blockData ++ toString j)).data.take dificultad.toNat
        = List.replicate dificultad.toNat '0' →
      ∃ k : Nat, (k : Int) ≤ j ∧
        (sha256Hex (blockData ++ toString (k : Int))).data.take dificultad.toNat
          = List.replicate dificultad.toNat '0' ∧
        (∀ i : Int, 0 ≤ i → i < (k : Int) →
          (sha256Hex (blockData ++ toString i)).data.take dificultad.toNat
            ≠ List.replicate dificultad.toNat '0') ∧
        ∀ fuel, k < fuel →
          SimularProofOfWork sha256Hex background blockData dificultad fuel
            = some (Llamada.retorna
                (sha256Hex (blockData ++ toString (k : Int)), (k : Int), none))) := by
  have hfind : ∀ k : Nat, k < 2 ^ 63 →
      hasPrefix (sha256Hex (blockData ++ toString (k : Int))) (repeatZero dificultad.toNat)
        = true →
      (∀ i : Nat, i < k →
        hasPrefix (sha256Hex (blockData ++ toString (i : Int))) (repeatZero dificultad.toNat)
          = false) →
      ∀ fuel, k < fuel →
        SimularProofOfWork sha256Hex background blockData dificultad fuel
          = some (Llamada.retorna
              (sha256Hex (blockData ++ toString (k : Int)), (k : Int), none)) := by
    intro k hk63 hk hlt fuel hfuel
    obtain ⟨g, rfl⟩ : ∃ g, fuel = (g + 1) + k := ⟨fuel - 1 - k, by omega⟩
    rw [SimularProofOfWork_retorna]
    refine ⟨hd, ?_⟩
    rw [powBucle_avanza sha256Hex background blockData _ k (g + 1) 0 0
      (by intro j hj
          refine ⟨rfl, ?_⟩
          rw [cero_mas, wrap64_natCast j (by omega)]
          exact hlt j hj)]
    rw [cero_mas, wrap64_natCast k hk63, powBucle]
    simp [background, hk]
  refine ⟨?_, ?_, ?_⟩
  · intro fuel hash k hr
    obtain ⟨_, hp⟩ := (SimularProofOfWork_retorna _ _ _ _ _ _).1 hr
    obtain ⟨m, hmf, hk, h1, h2, hno⟩ :=
      powBucle_resultado sha256Hex background blockData _ fuel 0 0 hash k hp
    subst h2
    refine ⟨(hasPrefix_repeatZero _ _).1 h1, ?_, ?_⟩
    · intro j hj0 hjk hc
      have hkw : k = ((0 : Int) + (m : Int) + 2 ^ 63) % 2 ^ 64 - 2 ^ 63 := hk
      obtain ⟨i, hi⟩ : ∃ i : Nat, (i : Int) = (m : Int) - k + j :=
        ⟨((m : Int) - k + j).toNat, by omega⟩
      have him : i < m := by omega
      have hwi : wrap64 ((0 : Int) + (i : Int)) = j := by
        unfold wrap64
        omega
      have := hno i him
      rw [hwi, (hasPrefix_repeatZero _ _).2 hc] at this
      cases this
    · intro hf
      rw [hk, cero_mas, wrap64_natCast m (by omega)]
      exact Int.natCast_nonneg m
  · intro h0 fuel hfuel
    subst h0
    have := hfind 0 (by norm_num) (by rw [hasPrefix_repeatZero]; rfl) (by intro i hi; omega)
      fuel hfuel
    simpa using this
  · intro j hj0 hj63 hj
    obtain ⟨n, rfl⟩ : ∃ n : Nat, j = (n : Int) := ⟨j.toNat, by omega⟩
    have hex : ∃ k : Nat, hasPrefix (sha256Hex (blockData ++ toString (k : Int)))
        (repeatZero dificultad.toNat) = true := ⟨n, (hasPrefix_repeatZero _ _).2 hj⟩
    have hle : Nat.find hex ≤ n := Nat.find_min' hex ((hasPrefix_repeatZero _ _).2 hj)
    have hmin : ∀ i : Nat, i < Nat.find hex →
        hasPrefix (sha256Hex (blockData ++ toString (i : Int))) (repeatZero dificultad.toNat)
          = false := by
      intro i hi
      have := Nat.find_min hex hi
      simpa using this
    refine ⟨Nat.find hex, by exact_mod_cast hle,
      (hasPrefix_repeatZero _ _).1 (Nat.find_spec hex), ?_, ?_⟩
    · intro i hi0 hi hc
      obtain ⟨t, rfl⟩ : ∃ t : Nat, i = (t : Int) := ⟨i.toNat, by omega⟩
      have := hmin t (by exact_mod_cast hi)
      rw [(hasPrefix_repeatZero _ _).2 hc] at this
      cases this
    · intro fuel hfuel
      exact hfind _ (by have : n < 2 ^ 63 := by exact_mod_cast hj63
                        omega) (Nat.find_spec hex) hmin fuel hfuel

/-- Witness of C10, amended: over `hashDeEjemplo` with block data `"ab"`
and difficulty 2 the search returns counter 3, which matches, is not
negative, and has no smaller matching counter. -/
theorem SimularProofOfWork_nonce_minimo_witness :
    (0 : Int) ≤ 2 ∧
    SimularProofOfWork hashDeEjemplo background "ab" 2 10
      = some (Llamada.retorna ("00c3", 3, none)) ∧
    ((hashDeEjemplo ("ab" ++ toString (3 : Int))).data.take (2 : Int).toNat
        = List.replicate (2 : Int).toNat '0' ∧
      (∀ j : Int, 0 ≤ j → j < 3 →
        (hashDeEjemplo ("ab" ++ toString j)).data.take (2 : Int).toNat
          ≠ List.replicate (2 : Int).toNat '0') ∧
      (10 ≤ 2 ^ 63 → (0 : Int) ≤ 3)) :=
  ⟨by decide, by decide,
    (SimularProofOfWork_nonce_minimo hashDeEjemplo "ab" 2 (by decide)).1 10 "00c3" 3
      (by decide)⟩

/-! ## Cancellation of the two workloads (C5) -/

/-- Counterexample to C5 as stated: with a scope that is cancelled from the
start and the difficulty `-1`, `SimularProofOfWork` does not return the
error `POW cancelado`: `strings.Repeat` panics before the first poll. -/
theorem SimularProofOfWork_dificultad_negativa_panic :
    SimularProofOfWork hashDeEjemplo yaCancelado "ab" (-1) 10
      = some (Llamada.panic "strings: negative Repeat count") ∧
    SimularProofOfWork hashDeEjemplo yaCancelado "ab" (-1) 10
      ≠ some (Llamada.retorna ("", 0, some "POW cancelado")) := by
  decide

/-- C5, amended: the scope is a signal polled once per outer iteration.  At
every poll that observes the scope cancelled, whatever counter or list of
primes the loop has reached, the loop of `SimularProofOfWork` returns hash
`""`, nonce `0` and the error `POW cancelado`, and the loop of
`EncontrarPrimos` returns a nil list and the error
`búsqueda de primos cancelada`.  Both loops do reach the first such poll
`k` when nothing ends them before (the difficulty is not negative and no
counter tried before poll `k` matches; `2 + k < max` for the primes, with
`2 + k ≤ 2^62`).  In particular, with a scope cancelled at the start,
`SimularProofOfWork` fails for every block data and every difficulty
`d ≥ 0`, and `EncontrarPrimos` fails for every `max > 2`. -/
theorem cancelacion_descarta_resultado (sha256Hex : String → String) (ctx : Contexto)
    (blockData : String) (dificultad : Int) (max : Int) (hd : 0 ≤ dificultad) :
    (∀ (targetPrefix : String) (fuel poll : Nat) (nonce : Int), ctx poll = true →
      powBucle sha256Hex ctx blockData targetPrefix (fuel + 1) poll nonce
        = some ("", 0, some "POW cancelado")) ∧
    (∀ interno fuel poll i primes, i < max → ctx poll = true →
      primosBucle ctx max interno (fuel + 1) poll i primes
        = some ([], some "búsqueda de primos cancelada")) ∧
    (∀ k : Nat, ctx k = true → (∀ p, p < k → ctx p = false) →
      (∀ j : Nat, j < k →
        (sha256Hex (blockData ++ toString (wrap64 (j : Int)))).data.take dificultad.toNat
          ≠ List.replicate dificultad.toNat '0') →
      ∀ fuel, k < fuel →
        SimularProofOfWork sha256Hex ctx blockData dificultad fuel
          = some (Llamada.retorna ("", 0, some "POW cancelado"))) ∧
    (∀ k : Nat, ctx k = true → (∀ p, p < k → ctx p = false) →
      (2 : Int) + k < max → 2 + k ≤ 2 ^ 62 →
      ∀ fuel, 2 + k ≤ fuel →
        EncontrarPrimos ctx max fuel = some ([], some "búsqueda de primos cancelada")) ∧
    (ctx 0 = true → ∀ fuel, 0 < fuel →
      SimularProofOfWork sha256Hex ctx blockData dificultad fuel
        = some (Llamada.retorna ("", 0, some "POW cancelado"))) ∧
    (ctx 0 = true → 2 < max → ∀ fuel, 0 < fuel →
      EncontrarPrimos ctx max fuel = some ([], some "búsqueda de primos cancelada")) := by
  have hA : ∀ (targetPrefix : String) (fuel poll : Nat) (nonce : Int), ctx poll = true →
      powBucle sha256Hex ctx blockData targetPrefix (fuel + 1) poll nonce
        = some ("", 0, some "POW cancelado") := by
    intro tp fuel poll nonce hc
    rw [powBucle, if_pos hc]
  have hB : ∀ interno fuel poll i primes, i < max → ctx poll = true →
      primosBucle ctx max interno (fuel + 1) poll i primes
        = some ([], some "búsqueda de primos cancelada") := by
    intro interno fuel poll i primes hi hc
    rw [primosBucle, if_pos hi, if_pos hc]
  have hC : ∀ k : Nat, ctx k = true → (∀ p, p < k → ctx p = false) →
      (∀ j : Nat, j < k →
        (sha256Hex (blockData ++ toString (wrap64 (j : Int)))).data.take dificultad.toNat
          ≠ List.replicate dificultad.toNat '0') →
      ∀ fuel, k < fuel →
        SimularProofOfWork sha256Hex ctx blockData dificultad fuel
          = some (Llamada.retorna ("", 0, some "POW cancelado")) := by
    intro k hk hbefore hno fuel hfuel
    obtain ⟨g, rfl⟩ : ∃ g, fuel = (g + 1) + k := ⟨fuel - 1 - k, by omega⟩
    rw [SimularProofOfWork_retorna]
    refine ⟨hd, ?_⟩
    rw [powBucle_avanza sha256Hex ctx blockData _ k (g + 1) 0 0
      (by intro j hj
          rw [Nat.zero_add, cero_mas]
          refine ⟨hbefore j hj, ?_⟩
          have := hno j hj
          rw [Ne, ← hasPrefix_repeatZero] at this
          simpa using this)]
    rw [Nat.zero_add]
    exact hA _ g k _ hk
  refine ⟨hA, hB, hC, ?_, ?_, ?_⟩
  · intro k hk hbefore hmax h62 fuel hfuel
    obtain ⟨g, hg⟩ : ∃ g, fuel = (g + 1) + k := ⟨fuel - 1 - k, by omega⟩
    unfold EncontrarPrimos
    have h := primosBucle_avanza ctx max fuel k (g + 1) 0 2 [] (le_refl _)
      (by push_cast; omega) h62 hfuel (by intro p _ hp; exact hbefore p (by omega))
    rw [show ((2 : Nat) : Int) = 2 from rfl] at h
    conv_lhs => arg 4; rw [hg]
    rw [h, Nat.zero_add]
    exact hB fuel g k _ _ (by push_cast; omega) hk
  · intro h0 fuel hfuel
    exact hC 0 h0 (by intro p hp; omega) (by intro j hj; omega) fuel hfuel
  · intro h0 hmax fuel hfuel
    obtain ⟨g, rfl⟩ : ∃ g, fuel = g + 1 := ⟨fuel - 1, by omega⟩
    exact hB (g + 1) g 0 2 [] hmax h0

/-- Witness of C5, amended: a scope first seen cancelled at the third poll
stops both workloads there, although the prime search had already
collected 2 and 3; a scope cancelled from the start stops both at once. -/
theorem cancelacion_descarta_resultado_witness :
    (0 : Int) ≤ 2 ∧
    (SimularProofOfWork hashDeEjemplo (canceladoDesde 2) "ab" 2 10
        = some (Llamada.retorna ("", 0, some "POW cancelado")) ∧
      EncontrarPrimos (canceladoDesde 2) 12 12
        = some ([], some "búsqueda de primos cancelada")) ∧
    (SimularProofOfWork hashDeEjemplo yaCancelado "ab" 2 10
        = some (Llamada.retorna ("", 0, some "POW cancelado")) ∧
      EncontrarPrimos yaCancelado 12 12 = some ([], some "búsqueda de primos cancelada")) :=
  ⟨by decide,
   ⟨(cancelacion_descarta_resultado hashDeEjemplo (canceladoDesde 2) "ab" 2 12
      (by decide)).2.2.1 2 (by decide) (by decide) (by decide) 10 (by decide),
    (cancelacion_descarta_resultado hashDeEjemplo (canceladoDesde 2) "ab" 2 12
      (by decide)).2.2.2.1 2 (by decide) (by decide) (by norm_num) (by norm_num) 12
      (by decide)⟩,
   ⟨(cancelacion_descarta_resultado hashDeEjemplo yaCancelado "ab" 2 12
      (by decide)).2.2.2.2.1 rfl 10 (by decide),
    (cancelacion_descarta_resultado hashDeEjemplo yaCancelado "ab" 2 12
      (by decide)).2.2.2.2.2 rfl (by decide) 12 (by decide)⟩⟩

/-! ## Branch selection of the two runners (C3) -/

theorem finalizar_rama (duracionTotal : Int) (rama : String) (err : GoError) :
    (finalizar duracionTotal rama err).2.1 = rama := by
  unfold finalizar
  cases err with
  | none => rfl
  | some msg => by_cases h : stringsContains msg "cancelado" = true <;> simp [h]

/-- C3: for every threshold `umbral` and decision value `traza`, the branch
identifier returned by `ejecucionEspeculativa` is `"A (ProofOfWork)"` if and
only if `traza > umbral` and `"B (EncontrarPrimos)"` otherwise, whatever the
branch outcomes are (also when an error is returned), and it is the
identifier that `ejecucionSecuencial` returns for the same `traza` and
`umbral`. -/
theorem rama_seleccionada_coincide (sha256Hex : String → String) (umbral : Int)
    (resDecision : ResultadoDecision) (resA : ResultadoPoW) (resB : ResultadoPrimos)
    (duracionTotal : Int) :
    ((ejecucionEspeculativa umbral resDecision resA resB duracionTotal).2.1 = "A (ProofOfWork)"
      ↔ resDecision.traza > umbral) ∧
    (¬ resDecision.traza > umbral →
      (ejecucionEspeculativa umbral resDecision resA resB duracionTotal).2.1
        = "B (EncontrarPrimos)") ∧
    (∀ (dificultadPoW : Int) (maxPrimos : Int) (blockData : String) (duracionSecuencial : Int)
        (fuel : Nat) (d : Int) (rama : String),
      ejecucionSecuencial sha256Hex resDecision.traza umbral dificultadPoW maxPrimos blockData
          duracionSecuencial fuel = some (Llamada.retorna (d, rama)) →
      rama = (ejecucionEspeculativa umbral resDecision resA resB duracionTotal).2.1) := by
  by_cases h : resDecision.traza > umbral
  · have hA : (ejecucionEspeculativa umbral resDecision resA resB duracionTotal).2.1
        = "A (ProofOfWork)" := by
      unfold ejecucionEspeculativa
      rw [if_pos h, finalizar_rama]
    refine ⟨⟨fun _ => h, fun _ => hA⟩, fun hn => absurd h hn, ?_⟩
    intro dif maxP bd ds fuel d rama hs
    unfold ejecucionSecuencial at hs
    rw [if_pos h] at hs
    rw [hA]
    cases hp : SimularProofOfWork sha256Hex background bd dif fuel with
    | none => rw [hp] at hs; cases hs
    | some v =>
      rw [hp] at hs
      cases v with
      | panic msg => simp at hs
      | retorna w =>
        simp only [Option.some.injEq, Llamada.retorna.injEq, Prod.mk.injEq] at hs
        exact hs.2.symm
  · have hB : (ejecucionEspeculativa umbral resDecision resA resB duracionTotal).2.1
        = "B (EncontrarPrimos)" := by
      unfold ejecucionEspeculativa
      rw [if_neg h, finalizar_rama]
    refine ⟨⟨fun hA => ?_, fun hp => absurd hp h⟩, fun _ => hB, ?_⟩
    · rw [hB] at hA
      exact absurd hA (by decide)
    · intro dif maxP bd ds fuel d rama hs
      unfold ejecucionSecuencial at hs
      rw [if_neg h] at hs
      rw [hB]
      cases hp : EncontrarPrimos background maxP fuel with
      | none => rw [hp] at hs; cases hs
      | some v =>
        rw [hp] at hs
        simp only [Option.some.injEq, Llamada.retorna.injEq, Prod.mk.injEq] at hs
        exact hs.2.symm

/-- Witness of C3: with trace 5 and threshold 4 both runners name branch A,
the speculative one on its error path; with trace 4 both name branch B. -/
theorem rama_seleccionada_coincide_witness :
    (ejecucionSecuencial hashDeEjemplo 5 4 2 12 "ab" 70 10
        = some (Llamada.retorna (70, "A (ProofOfWork)")) ∧
      ejecucionEspeculativa 4 ⟨5, 1⟩ ⟨"", 0, 3, some "POW cancelado"⟩ ⟨[], 2, none⟩ 60
        = (0, "A (ProofOfWork)",
            some "la rama ganadora fue cancelada (la decisión fue más rápida)") ∧
      "A (ProofOfWork)"
        = (ejecucionEspeculativa 4 ⟨5, 1⟩ ⟨"", 0, 3, some "POW cancelado"⟩ ⟨[], 2, none⟩ 60).2.1) ∧
    (ejecucionSecuencial hashDeEjemplo 4 4 2 12 "ab" 70 13
        = some (Llamada.retorna (70, "B (EncontrarPrimos)")) ∧
      "B (EncontrarPrimos)"
        = (ejecucionEspeculativa 4 ⟨4, 1⟩ ⟨"00c3", 3, 3, none⟩ ⟨[2, 3], 2, none⟩ 60).2.1) :=
  ⟨⟨by decide, by decide,
      (rama_seleccionada_coincide hashDeEjemplo 4 ⟨5, 1⟩ ⟨"", 0, 3, some "POW cancelado"⟩
        ⟨[], 2, none⟩ 60).2.2 2 12 "ab" 70 10 70 "A (ProofOfWork)" (by decide)⟩,
    ⟨by decide,
      (rama_seleccionada_coincide hashDeEjemplo 4 ⟨4, 1⟩ ⟨"00c3", 3, 3, none⟩
        ⟨[2, 3], 2, none⟩ 60).2.2 2 12 "ab" 70 13 70 "B (EncontrarPrimos)" (by decide)⟩⟩

/-! ## Aggregation of the trial durations (C7) -/

theorem foldl_wrap64_sum (tiempos : List Int) :
    ∀ total : Int, tiempos.foldl (fun total t => wrap64 (total + t)) (wrap64 total)
      = wrap64 (total + tiempos.sum) := by
  induction tiempos with
  | nil => intro total; simp
  | cons t ts ih =>
    intro total
    rw [List.foldl_cons, wrap64_add_wrap64, ih (total + t), List.sum_cons, add_assoc]

theorem sumarDuraciones_eq (tiempos : List Int) :
    sumarDuraciones tiempos = wrap64 tiempos.sum := by
  unfold sumarDuraciones
  have h := foldl_wrap64_sum tiempos 0
  rw [show wrap64 0 = 0 from rfl, zero_add] at h
  exact h

theorem tdiv_en_rango (s n : Int) (hn : 0 < n) (h1 : -2 ^ 63 ≤ s) (h2 : s < 2 ^ 63) :
    -2 ^ 63 ≤ Int.tdiv s n ∧ Int.tdiv s n < 2 ^ 63 := by
  rcases le_or_lt 0 s with hs | hs
  · rw [Int.tdiv_eq_ediv hs (le_of_lt hn)]
    have hle : s / n ≤ s := Int.ediv_le_self n hs
    have h0 : 0 ≤ s / n := Int.ediv_nonneg hs (le_of_lt hn)
    constructor <;> omega
  · have hneg : Int.tdiv s n = -(Int.tdiv (-s) n) := by rw [Int.neg_tdiv, neg_neg]
    have hs' : 0 ≤ -s := by omega
    rw [hneg, Int.tdiv_eq_ediv hs' (le_of_lt hn)]
    have hle : -s / n ≤ -s := Int.ediv_le_self n hs'
    have h0 : 0 ≤ -s / n := Int.ediv_nonneg hs' (le_of_lt hn)
    constructor <;> omega

theorem recolectarEspeculativos_foldl (resultados : List (Int × String × GoError)) :
    ∀ tiempos : List Int,
      resultados.foldl (fun tiempos r => if r.2.2 ≠ none then tiempos else tiempos ++ [r.1])
          tiempos
        = tiempos ++ (resultados.filter (fun r => decide (r.2.2 = none))).map (fun r => r.1) := by
  induction resultados with
  | nil => intro tiempos; simp
  | cons r rs ih =>
    intro tiempos
    rw [List.foldl_cons, ih]
    by_cases h : r.2.2 = none
    · simp [h, List.filter_cons]
    · simp [h, List.filter_cons]

/-- C7: for every non-empty list of recorded durations (64-bit integers)
whose sum does not overflow, the mean that `main` computes is exactly the
sum divided by the number of durations under truncating integer division,
by the same formula for the sequential and for the speculative aggregate;
and the speculative list holds exactly the durations of the trials that
returned no error, in trial order. -/
theorem promedio_es_suma_entre_cantidad (tiempos : List Int) (hne : tiempos ≠ [])
    (hmin : -2 ^ 63 ≤ tiempos.sum) (hmax : tiempos.sum < 2 ^ 63) :
    tpoPromedioSecuencial tiempos = Except.ok (Int.tdiv tiempos.sum tiempos.length) ∧
    tpoPromedioEspeculativo tiempos = Except.ok (Int.tdiv tiempos.sum tiempos.length) ∧
    (∀ resultados : List (Int × String × GoError),
      recolectarEspeculativos resultados
        = (resultados.filter (fun r => decide (r.2.2 = none))).map (fun r => r.1)) := by
  have hlen : (0 : Int) < (tiempos.length : Int) := by
    have : 0 < tiempos.length := List.length_pos.mpr hne
    exact_mod_cast this
  have hdiv : dividirDuracion (sumarDuraciones tiempos) (tiempos.length : Int)
      = Except.ok (Int.tdiv tiempos.sum tiempos.length) := by
    unfold dividirDuracion
    rw [if_neg (by omega), sumarDuraciones_eq, wrap64_eq _ hmin hmax]
    obtain ⟨h1, h2⟩ := tdiv_en_rango _ _ hlen hmin hmax
    rw [wrap64_eq _ h1 h2]
  refine ⟨hdiv, hdiv, ?_⟩
  intro resultados
  unfold recolectarEspeculativos
  rw [recolectarEspeculativos_foldl]
  simp

/-- Witness of C7: the durations -7, 2 and 1 have mean -1 (the quotient -4/3
truncated toward zero), and of three trials the failed one is left out. -/
theorem promedio_es_suma_entre_cantidad_witness :
    tpoPromedioSecuencial [-7, 2, 1] = Except.ok (Int.tdiv ([-7, 2, 1] : List Int).sum 3) ∧
    Int.tdiv ([-7, 2, 1] : List Int).sum 3 = -1 ∧
    recolectarEspeculativos [(5, "A (ProofOfWork)", none), pruebaFallida,
      (8, "B (EncontrarPrimos)", none)] = [5, 8] :=
  ⟨(promedio_es_suma_entre_cantidad [-7, 2, 1] (by decide) (by decide) (by decide)).1,
    by decide, by decide⟩

/-! ## Decision workload: the trace of the product (C9) -/

theorem foldl_add_range (f : Nat → Int) (n : Nat) :
    ∀ a : Int, (List.range n).foldl (fun acc i => acc + f i) a
      = a + ∑ i in Finset.range n, f i := by
  induction n with
  | zero => intro a; simp
  | succ n ih =>
    intro a
    rw [List.range_succ, List.foldl_append, ih, Finset.sum_range_succ]
    simp [add_assoc]

theorem trazaDeProducto_eq_sum (n : Nat) (m1 m2 : Nat → Nat → Int) :
    trazaDeProducto n m1 m2
      = ∑ i in Finset.range n, ∑ k in Finset.range n, m1 i k * m2 k i := by
  unfold trazaDeProducto
  have hinner : ∀ i : Nat,
      (List.range n).foldl (fun sum k => sum + m1 i k * m2 k i) 0
        = ∑ k in Finset.range n, m1 i k * m2 k i := by
    intro i
    rw [foldl_add_range (fun k => m1 i k * m2 k i) n 0, zero_add]
  simp only [hinner]
  rw [foldl_add_range (fun i => ∑ k in Finset.range n, m1 i k * m2 k i) n 0, zero_add]

/-- C9: for every size `n` and every pair of matrices whose entries at rows
and columns below `n` lie in `[0, 9]`, the value computed by the loops of
`CalcularTrazaDeProductoDeMatrices` is the sum over `i` and `k` of
`m1[i][k] * m2[k][i]`, which is the trace of the matrix product `m1 * m2`,
and it lies between 0 and `81 * n * n` (so it is 0 for `n = 0`).  The same
holds for the matrices the function fills from any stream of
`rand.Intn(10)` values. -/
theorem traza_del_producto_acotada (n : Nat) (m1 m2 : Nat → Nat → Int)
    (h1 : ∀ i j, i < n → j < n → 0 ≤ m1 i j ∧ m1 i j ≤ 9)
    (h2 : ∀ i j, i < n → j < n → 0 ≤ m2 i j ∧ m2 i j ≤ 9) :
    trazaDeProducto n m1 m2
      = ∑ i in Finset.range n, ∑ k in Finset.range n, m1 i k * m2 k i ∧
    trazaDeProducto n m1 m2
      = Matrix.trace ((Matrix.of fun (i k : Fin n) => m1 i k)
          * (Matrix.of fun (k i : Fin n) => m2 k i)) ∧
    0 ≤ trazaDeProducto n m1 m2 ∧ trazaDeProducto n m1 m2 ≤ 81 * (n : Int) * (n : Int) ∧
    (n = 0 → trazaDeProducto n m1 m2 = 0) ∧
    (∀ intn : Nat → Int, (∀ t, 0 ≤ intn t ∧ intn t ≤ 9) →
      CalcularTrazaDeProductoDeMatrices intn n
        = ∑ i in Finset.range n, ∑ k in Finset.range n,
            intn (2 * (i * n + k)) * intn (2 * (k * n + i) + 1) ∧
      0 ≤ CalcularTrazaDeProductoDeMatrices intn n ∧
      CalcularTrazaDeProductoDeMatrices intn n ≤ 81 * (n : Int) * (n : Int)) := by
  have hbound : ∀ (a b : Nat → Nat → Int),
      (∀ i j, i < n → j < n → 0 ≤ a i j ∧ a i j ≤ 9) →
      (∀ i j, i < n → j < n → 0 ≤ b i j ∧ b i j ≤ 9) →
      0 ≤ (∑ i in Finset.range n, ∑ k in Finset.range n, a i k * b k i) ∧
      (∑ i in Finset.range n, ∑ k in Finset.range n, a i k * b k i)
        ≤ 81 * (n : Int) * (n : Int) := by
    intro a b ha hb
    have hterm : ∀ i ∈ Finset.range n, ∀ k ∈ Finset.range n,
        0 ≤ a i k * b k i ∧ a i k * b k i ≤ 81 := by
      intro i hi k hk
      rw [Finset.mem_range] at hi hk
      obtain ⟨a0, a9⟩ := ha i k hi hk
      obtain ⟨b0, b9⟩ := hb k i hk hi
      constructor
      · exact mul_nonneg a0 b0
      · nlinarith
    constructor
    · exact Finset.sum_nonneg fun i hi => Finset.sum_nonneg fun k hk => (hterm i hi k hk).1
    · have hrow : ∀ i ∈ Finset.range n,
          (∑ k in Finset.range n, a i k * b k i) ≤ 81 * (n : Int) := by
        intro i hi
        calc (∑ k in Finset.range n, a i k * b k i)
            ≤ ∑ _k in Finset.range n, (81 : Int) :=
              Finset.sum_le_sum fun k hk => (hterm i hi k hk).2
          _ = 81 * (n : Int) := by simp [mul_comm]
      calc (∑ i in Finset.range n, ∑ k in Finset.range n, a i k * b k i)
          ≤ ∑ _i in Finset.range n, (81 * (n : Int)) := Finset.sum_le_sum hrow
        _ = 81 * (n : Int) * (n : Int) := by simp [mul_comm]
  have hsum := trazaDeProducto_eq_sum n m1 m2
  obtain ⟨hlo, hhi⟩ := hbound m1 m2 h1 h2
  refine ⟨hsum, ?_, by rw [hsum]; exact hlo, by rw [hsum]; exact hhi, ?_, ?_⟩
  · rw [hsum, Matrix.trace]
    simp only [Matrix.diag_apply, Matrix.mul_apply, Matrix.of_apply]
    rw [← Fin.sum_univ_eq_sum_range (fun i => ∑ k in Finset.range n, m1 i k * m2 k i) n]
    refine Finset.sum_congr rfl fun i _ => ?_
    rw [← Fin.sum_univ_eq_sum_range (fun k => m1 i k * m2 k i) n]
  · intro h0
    subst h0
    rfl
  · intro intn hintn
    have hs := trazaDeProducto_eq_sum n (fun i j => intn (2 * (i * n + j)))
      (fun i j => intn (2 * (i * n + j) + 1))
    obtain ⟨l, u⟩ := hbound (fun i j => intn (2 * (i * n + j)))
      (fun i j => intn (2 * (i * n + j) + 1)) (fun i j _ _ => hintn _) (fun i j _ _ => hintn _)
    unfold CalcularTrazaDeProductoDeMatrices
    exact ⟨hs, by rw [hs]; exact l, by rw [hs]; exact u⟩

/-- Witness of C9: for the 2-by-2 matrices with rows (1 2), (3 4) and
(5 6), (7 8) the loops compute 69, the trace of the product. -/
theorem traza_del_producto_acotada_witness :
    trazaDeProducto 2 (fun i j => 2 * (i : Int) + j + 1) (fun i j => 2 * (i : Int) + j + 5) = 69 ∧
    (0 : Int) ≤ trazaDeProducto 2 (fun i j => 2 * (i : Int) + j + 1)
      (fun i j => 2 * (i : Int) + j + 5) ∧
    trazaDeProducto 2 (fun i j => 2 * (i : Int) + j + 1) (fun i j => 2 * (i : Int) + j + 5)
      ≤ 81 * ((2 : Nat) : Int) * ((2 : Nat) : Int) :=
  ⟨by decide,
    (traza_del_producto_acotada 2 (fun i j => 2 * (i : Int) + j + 1)
      (fun i j => 2 * (i : Int) + j + 5)
      (by intro i j hi hj; interval_cases i <;> interval_cases j <;> norm_num)
      (by intro i j hi hj; interval_cases i <;> interval_cases j <;> norm_num)).2.2.1,
    (traza_del_producto_acotada 2 (fun i j => 2 * (i : Int) + j + 1)
      (fun i j => 2 * (i : Int) + j + 5)
      (by intro i j hi hj; interval_cases i <;> interval_cases j <;> norm_num)
      (by intro i j hi hj; interval_cases i <;> interval_cases j <;> norm_num)).2.2.2.1⟩

/-! ## Ordering in one speculative run (C6) -/

theorem invariante_inicial : Invariante estadoInicial := by
  simp [Invariante, estadoInicial]

theorem invariante_paso (umbral : Int) (s t : Estado) (a : Accion)
    (hs : Invariante s) (hp : paso umbral s a = some t) : Invariante t := by
  obtain ⟨fase, disparado, tD, tA, tB, chD, chA, chB, resD, rama, recA, recB, sA, sB, ret⟩ := s
  simp only [Invariante] at hs
  obtain ⟨h1, h2, h3, h4, h5, h6, h7, h8, h9, h10, h11, h12, h13, h14, h15, h16, h17, h18,
    h19⟩ := hs
  cases a with
  | orquestador reloj =>
    cases fase <;> simp only [paso] at hp
    · cases hp; simp_all [Invariante]
    · cases chD <;> simp at hp
      cases hp; simp_all [Invariante]
    · cases resD <;> simp at hp
      cases hp; simp_all [Invariante]
    · rcases rama with _ | r
      · simp at hp
      · cases r
        · cases chA <;> simp at hp
          cases hp; simp_all [Invariante]
        · cases chB <;> simp at hp
          cases hp; simp_all [Invariante]
    · cases hp; cases sA <;> cases sB <;> simp_all [Invariante]
    · cases ret <;> cases rama <;> simp at hp
      cases hp; cases sA <;> cases sB <;> simp_all [Invariante]
  | decision traza =>
    simp only [paso] at hp
    split at hp
    · cases hp; simp_all [Invariante]
    · cases hp
  | iteracionA hallado =>
    simp only [paso] at hp
    split at hp
    · split at hp
      · cases hp; cases sA <;> cases sB <;> simp_all [Invariante]
      · split at hp <;> cases hp <;> simp_all [Invariante]
    · cases hp
  | iteracionB agotado =>
    simp only [paso] at hp
    split at hp
    · split at hp
      · cases hp; simp_all [Invariante]
      · split at hp <;> cases hp <;> cases sA <;> cases sB <;> simp_all [Invariante]
    · cases hp

theorem invariante_ejecutar (umbral : Int) (acciones : List Accion) :
    ∀ s t : Estado, Invariante s → ejecutar umbral s acciones = some t → Invariante t := by
  induction acciones with
  | nil =>
    intro s t hs h
    simp only [ejecutar, Option.some.injEq] at h
    exact h ▸ hs
  | cons a resto ih =>
    intro s t hs h
    rw [ejecutar] at h
    cases hp : paso umbral s a with
    | none => rw [hp] at h; cases h
    | some u =>
      rw [hp] at h
      exact ih u t (invariante_paso umbral s u a hs hp) h

/-- C6: in every state that a run of `ejecucionEspeculativa` can reach,
under any interleaving of the orchestrator and its goroutines: a branch
outcome has been received only if the decision outcome has been received
before, and only from the selected branch; the scope has been cancelled
only if the outcome of the selected branch has been received before; hence
no poll of the selected branch has found the scope cancelled, and while the
selected branch is still running the scope is not cancelled. -/
theorem orden_de_la_ejecucion (umbral : Int) (acciones : List Accion) (s : Estado)
    (h : ejecutar umbral estadoInicial acciones = some s) :
    ((s.recibidoA.isSome ∨ s.recibidoB.isSome) → s.resDecision.isSome) ∧
    (∀ r, (s.recibido r).isSome → s.ramaSeleccionada = some r) ∧
    (s.disparado = true → ∃ r, s.ramaSeleccionada = some r ∧ (s.recibido r).isSome) ∧
    (∀ r, s.ramaSeleccionada = some r → s.sondeoCancelado r = false) ∧
    (∀ r, s.ramaSeleccionada = some r → s.tarea r = Tarea.corriendo → s.disparado = false) := by
  have hinv := invariante_ejecutar umbral acciones estadoInicial s invariante_inicial h
  obtain ⟨h1, h2, _, _, h5, h6, h7, h8, _⟩ := hinv
  refine ⟨h7, ?_, ?_, ?_, ?_⟩
  · intro r hr
    cases r
    · exact (h5 hr).2
    · exact (h6 hr).2
  · intro hd
    rcases h8 hd with ⟨a, b, _⟩ | ⟨a, b, _⟩
    · exact ⟨Rama.A, a, b⟩
    · exact ⟨Rama.B, a, b⟩
  · intro r hr
    by_cases hd : s.disparado = true
    · rcases h8 hd with ⟨a, _, c⟩ | ⟨a, _, c⟩
      · rw [a] at hr
        cases hr
        exact c
      · rw [a] at hr
        cases hr
        exact c
    · cases r
      · cases hsA : s.sondeoCanceladoA with
        | false => simp [Estado.sondeoCancelado, hsA]
        | true => exact absurd (h1 hsA) hd
      · cases hsB : s.sondeoCanceladoB with
        | false => simp [Estado.sondeoCancelado, hsB]
        | true => exact absurd (h2 hsB) hd
  · intro r hr hrun
    cases hd : s.disparado with
    | false => rfl
    | true =>
      exfalso
      rcases h8 hd with ⟨a, b, _⟩ | ⟨a, b, _⟩
      · rw [a] at hr
        cases hr
        have := (h5 b).1
        simp [Estado.tarea, this] at hrun
      · rw [a] at hr
        cases hr
        have := (h6 b).1
        simp [Estado.tarea, this] at hrun

/-- Witness of C6: the schedule `planDeEjemplo` reaches `Finish` with
branch A selected and returned without error, branch B having been stopped
by the cancellation; the ordering facts hold in the state it reaches. -/
theorem orden_de_la_ejecucion_witness :
    ejecutar 4 estadoInicial planDeEjemplo = some estadoFinalDeEjemplo ∧
    (estadoFinalDeEjemplo.disparado = true →
      ∃ r, estadoFinalDeEjemplo.ramaSeleccionada = some r ∧
        (estadoFinalDeEjemplo.recibido r).isSome) ∧
    (∀ r, estadoFinalDeEjemplo.ramaSeleccionada = some r →
      estadoFinalDeEjemplo.sondeoCancelado r = false) :=
  ⟨by decide,
    (orden_de_la_ejecucion 4 planDeEjemplo estadoFinalDeEjemplo (by decide)).2.2.1,
    (orden_de_la_ejecucion 4 planDeEjemplo estadoFinalDeEjemplo (by decide)).2.2.2.1⟩

/-! ## What a speculative run returns (C4, C8) -/

theorem elegida_sin_error (s : Estado) (hs : Invariante s) (r : Rama)
    (hr : s.ramaSeleccionada = some r) (msg : String) : s.recibido r ≠ some (some msg) := by
  obtain ⟨h1, h2, _, _, _, _, _, h8, _, _, h11, h12, _⟩ := hs
  intro hrec
  cases r with
  | A =>
    have hsA := h11 msg hrec
    rcases h8 (h1 hsA) with ⟨_, _, c⟩ | ⟨a, _, _⟩
    · rw [hsA] at c; cases c
    · rw [a] at hr; cases hr
  | B =>
    have hsB := h12 msg hrec
    rcases h8 (h2 hsB) with ⟨a, _, _⟩ | ⟨_, _, c⟩
    · rw [a] at hr; cases hr
    · rw [hsB] at c; cases c

theorem elegida_join_none (s : Estado) (hs : Invariante s) (r : Rama)
    (hr : s.ramaSeleccionada = some r) : (s.recibido r).join = none := by
  cases hrec : s.recibido r with
  | none => rfl
  | some e =>
    cases e with
    | none => rfl
    | some msg => exact absurd hrec (elegida_sin_error s hs r hr msg)

theorem retorno_paso (umbral : Int) (s t : Estado) (a : Accion) (hs : Invariante s)
    (hret : ∀ ret, s.retorno = some ret → ret.2.2 = none)
    (hp : paso umbral s a = some t) : ∀ ret, t.retorno = some ret → ret.2.2 = none := by
  cases a with
  | orquestador reloj =>
    cases hf : s.fase <;> simp only [paso, hf] at hp
    · cases hp; exact hret
    · cases hch : s.chDecision <;> simp only [hch] at hp
      · cases hp
      · cases hp; exact hret
    · cases hres : s.resDecision <;> simp only [hres] at hp
      · cases hp
      · cases hp; exact hret
    · cases hrama : s.ramaSeleccionada with
      | none => simp only [hrama] at hp; cases hp
      | some r =>
        cases r
        · simp only [hrama] at hp
          cases hch : s.chRamaA <;> simp only [hch] at hp
          · cases hp
          · cases hp; exact hret
        · simp only [hrama] at hp
          cases hch : s.chRamaB <;> simp only [hch] at hp
          · cases hp
          · cases hp; exact hret
    · cases hp; exact hret
    · cases hr0 : s.retorno with
      | some v => simp only [hr0] at hp; cases hp
      | none =>
        cases hrama : s.ramaSeleccionada with
        | none => simp only [hr0, hrama] at hp; cases hp
        | some r =>
          simp only [hr0, hrama, Option.some.injEq] at hp
          subst hp
          intro ret hret2
          simp only [Option.some.injEq] at hret2
          subst hret2
          rw [elegida_join_none s hs r hrama]
          rfl
  | decision traza =>
    simp only [paso] at hp
    split at hp
    · cases hp; exact hret
    · cases hp
  | iteracionA hallado =>
    simp only [paso] at hp
    split at hp
    · split at hp
      · cases hp; exact hret
      · split at hp <;> cases hp <;> exact hret
    · cases hp
  | iteracionB agotado =>
    simp only [paso] at hp
    split at hp
    · split at hp
      · cases hp; exact hret
      · split at hp <;> cases hp <;> exact hret
    · cases hp

theorem retorno_ejecutar (umbral : Int) (acciones : List Accion) :
    ∀ s t : Estado, Invariante s → (∀ ret, s.retorno = some ret → ret.2.2 = none) →
      ejecutar umbral s acciones = some t → ∀ ret, t.retorno = some ret → ret.2.2 = none := by
  induction acciones with
  | nil =>
    intro s t _ hret h
    simp only [ejecutar, Option.some.injEq] at h
    exact h ▸ hret
  | cons a resto ih =>
    intro s t hs hret h
    rw [ejecutar] at h
    cases hp : paso umbral s a with
    | none => rw [hp] at h; cases h
    | some u =>
      rw [hp] at h
      exact ih u t (invariante_paso umbral s u a hs hp) (retorno_paso umbral s u a hs hret hp) h

theorem pruebaEspeculativa_sin_error (umbral : Int) (plan : List Accion)
    (r : Int × String × GoError) (h : pruebaEspeculativa umbral plan = some r) :
    r.2.2 = none := by
  unfold pruebaEspeculativa at h
  cases he : ejecutar umbral estadoInicial plan with
  | none => rw [he] at h; cases h
  | some s =>
    rw [he] at h
    exact retorno_ejecutar umbral plan estadoInicial s invariante_inicial
      (by intro ret hr; cases hr) he r h

/-! ## The chosen outcome and the returned error (C4) -/

/-- C4: in every state that a run of `ejecucionEspeculativa` can reach, for
each of the two branches, when it is the selected one: if the outcome
received from it carries the failure with which its workload reports a
cancellation, the value returned carries the error of the cancelled chosen
branch; if it carries no failure, the returned error is nil.  The first
case never arises in a run: the scope is cancelled only after the outcome
of the selected branch has been received, so this outcome carries no
failure and every returned error is nil. -/
theorem retorno_segun_resultado_elegido (umbral : Int) (acciones : List Accion) (s : Estado)
    (h : ejecutar umbral estadoInicial acciones = some s) :
    (∀ r ret, s.ramaSeleccionada = some r →
      s.recibido r = some (some (mensajeCancelado r)) → s.retorno = some ret →
      ret.2.2 = some errorRamaGanadoraCancelada) ∧
    (∀ r ret, s.ramaSeleccionada = some r → s.recibido r = some none →
      s.retorno = some ret → ret.2.2 = none) ∧
    (∀ r e, s.ramaSeleccionada = some r → s.recibido r = some e → e = none) ∧
    (∀ ret, s.retorno = some ret → ret.2.2 = none) := by
  have hinv := invariante_ejecutar umbral acciones estadoInicial s invariante_inicial h
  have hret := retorno_ejecutar umbral acciones estadoInicial s invariante_inicial
    (by intro ret hr; cases hr) h
  refine ⟨?_, ?_, ?_, hret⟩
  · intro r ret hr hrec _
    exact absurd hrec (elegida_sin_error s hinv r hr _)
  · intro r ret _ _ hs
    exact hret ret hs
  · intro r e hr hrec
    cases e with
    | none => rfl
    | some msg => exact absurd hrec (elegida_sin_error s hinv r hr msg)

/-- Witness of C4: the schedule `planDeEjemplo` ends with branch A selected,
its outcome received without failure and a nil error returned. -/
theorem retorno_segun_resultado_elegido_witness :
    ejecutar 4 estadoInicial planDeEjemplo = some estadoFinalDeEjemplo ∧
    estadoFinalDeEjemplo.ramaSeleccionada = some Rama.A ∧
    estadoFinalDeEjemplo.recibido Rama.A = some none ∧
    estadoFinalDeEjemplo.retorno = some (30, "A (ProofOfWork)", none) ∧
    (30, "A (ProofOfWork)", (none : GoError)).2.2 = none :=
  ⟨by decide, by decide, by decide, by decide,
    (retorno_segun_resultado_elegido 4 planDeEjemplo estadoFinalDeEjemplo (by decide)).2.1
      Rama.A (30, "A (ProofOfWork)", none) (by decide) (by decide) (by decide)⟩

/-! ## The aggregation over the 30 trials (C8) -/

theorem pruebasEspeculativas_spec (umbral : Int) :
    ∀ (planes : List (List Accion)) (resultados : List (Int × String × GoError)),
      pruebasEspeculativas umbral planes = some resultados →
      resultados.length = planes.length ∧ ∀ r ∈ resultados, r.2.2 = none := by
  intro planes
  induction planes with
  | nil =>
    intro resultados h
    simp only [pruebasEspeculativas, Option.some.injEq] at h
    subst h
    simp
  | cons plan resto ih =>
    intro resultados h
    rw [pruebasEspeculativas] at h
    cases h1 : pruebaEspeculativa umbral plan with
    | none => simp [h1] at h
    | some r =>
      cases h2 : pruebasEspeculativas umbral resto with
      | none => simp [h1, h2] at h
      | some rs =>
        simp only [h1, h2, Option.some.injEq] at h
        subst h
        obtain ⟨hl, hall⟩ := ih rs h2
        refine ⟨by simp [hl], ?_⟩
        intro x hx
        rcases List.mem_cons.1 hx with rfl | hx
        · exact pruebaEspeculativa_sin_error umbral plan x h1
        · exact hall x hx

theorem recolectarSecuenciales_length (resultados : List (Int × String)) :
    (recolectarSecuenciales resultados).length = resultados.length := by
  have h : ∀ (rs : List (Int × String)) (tiempos : List Int),
      (rs.foldl (fun tiempos r => tiempos ++ [r.1]) tiempos).length
        = tiempos.length + rs.length := by
    intro rs
    induction rs with
    | nil => intro tiempos; simp
    | cons r rs ih =>
      intro tiempos
      rw [List.foldl_cons, ih]
      simp
      omega
  unfold recolectarSecuenciales
  rw [h]
  simp

theorem recolectarEspeculativos_eq (resultados : List (Int × String × GoError)) :
    recolectarEspeculativos resultados
      = (resultados.filter (fun r => decide (r.2.2 = none))).map (fun r => r.1) := by
  unfold recolectarEspeculativos
  rw [recolectarEspeculativos_foldl]
  simp

theorem dividirDuracion_ok (a b : Int) (hb : b ≠ 0) :
    ∃ p, dividirDuracion a b = Except.ok p := by
  unfold dividirDuracion
  rw [if_neg hb]
  exact ⟨_, rfl⟩

/-- C8: for every sequence of results that the 30 speculative trials of
`main` can return, under any schedules of their goroutines, the aggregation
step (summing the kept durations and dividing by their count) completes
without a runtime error.  No trial returns an error, so all 30 durations
are kept and the divisor is 30; and whatever the results, one trial without
error is enough for the division to complete. -/
theorem agregacion_completa (umbral : Int) (secuenciales : List (Int × String))
    (planes : List (List Accion)) (resultados : List (Int × String × GoError))
    (hs : secuenciales.length = 30) (hp : planes.length = 30)
    (hr : pruebasEspeculativas umbral planes = some resultados) :
    (∀ r ∈ resultados, r.2.2 = none) ∧
    (recolectarEspeculativos resultados).length = 30 ∧
    (∃ p, agregar secuenciales resultados = Except.ok p) ∧
    (∀ rs : List (Int × String × GoError), (∃ r ∈ rs, r.2.2 = none) →
      ∃ p, tpoPromedioEspeculativo (recolectarEspeculativos rs) = Except.ok p) := by
  obtain ⟨hlen, hall⟩ := pruebasEspeculativas_spec umbral planes resultados hr
  have hkeep : (recolectarEspeculativos resultados).length = 30 := by
    rw [recolectarEspeculativos_eq, List.length_map, List.filter_eq_self.2, hlen, hp]
    intro r hrm
    simp [hall r hrm]
  have hgen : ∀ rs : List (Int × String × GoError), (∃ r ∈ rs, r.2.2 = none) →
      ∃ p, tpoPromedioEspeculativo (recolectarEspeculativos rs) = Except.ok p := by
    intro rs ⟨r, hrm, hnone⟩
    unfold tpoPromedioEspeculativo
    apply dividirDuracion_ok
    have hmem : r.1 ∈ recolectarEspeculativos rs := by
      rw [recolectarEspeculativos_eq]
      exact List.mem_map.2 ⟨r, List.mem_filter.2 ⟨hrm, by simp [hnone]⟩, rfl⟩
    have hpos : 0 < (recolectarEspeculativos rs).length := List.length_pos_of_mem hmem
    omega
  refine ⟨hall, hkeep, ?_, hgen⟩
  obtain ⟨a, ha⟩ : ∃ a, tpoPromedioSecuencial (recolectarSecuenciales secuenciales)
      = Except.ok a := by
    unfold tpoPromedioSecuencial
    apply dividirDuracion_ok
    rw [recolectarSecuenciales_length, hs]
    decide
  obtain ⟨b, hb⟩ : ∃ b, tpoPromedioEspeculativo (recolectarEspeculativos resultados)
      = Except.ok b := by
    unfold tpoPromedioEspeculativo
    apply dividirDuracion_ok
    rw [hkeep]
    decide
  exact ⟨(a, b), by unfold agregar; rw [ha, hb]⟩

set_option maxRecDepth 8000 in
/-- Witness of C8: 30 trials that all follow the schedule `planDeEjemplo`
return 30 results without error, and the two means are 5 and 30. -/
theorem agregacion_completa_witness :
    pruebasEspeculativas 4 (List.replicate 30 planDeEjemplo)
      = some (List.replicate 30 (30, "A (ProofOfWork)", none)) ∧
    agregar (List.replicate 30 (5, "A (ProofOfWork)"))
      (List.replicate 30 (30, "A (ProofOfWork)", none)) = Except.ok (5, 30) ∧
    (recolectarEspeculativos (List.replicate 30 (30, "A (ProofOfWork)", none))).length = 30 :=
  ⟨by decide, by rfl,
    (agregacion_completa 4 (List.replicate 30 (5, "A (ProofOfWork)"))
      (List.replicate 30 planDeEjemplo) (List.replicate 30 (30, "A (ProofOfWork)", none))
      (by decide) (by decide) (by decide)).2.1⟩
end Lengu
